import Mathlib

/-!
Verification development for the Samsung download-mode protocol engine and
firmware parser of the zodin-flash-tool repository
(`src/zodin-flash-tool/samsung_protocol.py`).

The Python source is shallowly embedded:
* bytes become `List Nat` (each entry a byte value),
* the USB bulk-in endpoint becomes an explicit queue of read results
  (`none` models a read that raises, e.g. a timeout),
* at session level the device is a script of reply frames and the object
  state `session_active` is threaded explicitly,
* progress-callback invocations are collected in a log list (the log holds
  exactly the calls the source would make when a callback is supplied).
-/

/-- Byte strings are lists of byte values. -/
abbrev Payload := List Nat

/-- `PacketType` enum from the source, with the same nine members. -/
inductive PacketType where
  | HANDSHAKE
  | FLASH_SET_TOTAL_BYTES
  | FLASH_SEND_DATA
  | DUMP_PART_PIT
  | DUMP_PART_NAND
  | END_SESSION
  | DEVICE_TYPE
  | PIT_FILE
  | DUMP_PART_SBOOT
deriving DecidableEq

/-- The numeric wire code of each packet type (the enum values in the source). -/
def PacketType.val : PacketType → Nat
  | .HANDSHAKE => 0
  | .FLASH_SET_TOTAL_BYTES => 1
  | .FLASH_SEND_DATA => 2
  | .DUMP_PART_PIT => 3
  | .DUMP_PART_NAND => 4
  | .END_SESSION => 5
  | .DEVICE_TYPE => 6
  | .PIT_FILE => 7
  | .DUMP_PART_SBOOT => 8

/-- `PacketType(value)` in Python: the enum member with this value, or a
`ValueError` (modelled as `none`) when no member has it. -/
def PacketType.ofNat? (n : Nat) : Option PacketType :=
  if n = 0 then some .HANDSHAKE
  else if n = 1 then some .FLASH_SET_TOTAL_BYTES
  else if n = 2 then some .FLASH_SEND_DATA
  else if n = 3 then some .DUMP_PART_PIT
  else if n = 4 then some .DUMP_PART_NAND
  else if n = 5 then some .END_SESSION
  else if n = 6 then some .DEVICE_TYPE
  else if n = 7 then some .PIT_FILE
  else if n = 8 then some .DUMP_PART_SBOOT
  else none

/-- The four little-endian bytes of `n`, for `n < 2^32`: the value
`struct.pack("<I", n)` returns when it succeeds.  For the raising behaviour
of `struct.pack` on larger values see `packU32?`. -/
def u32le (n : Nat) : List Nat :=
  [n % 256, n / 256 % 256, n / 65536 % 256, n / 16777216 % 256]

/-- `struct.pack("<I", n)` with its error path: the packed bytes for
`n < 2^32`, and `none` for the `struct.error` raised on larger values. -/
def packU32? (n : Nat) : Option (List Nat) :=
  if n < 4294967296 then some (u32le n) else none

/-- `struct.unpack("<I", b)` on a four-byte string. -/
def u32FromList : List Nat → Nat
  | [a, b, c, d] => a + 256 * b + 65536 * c + 16777216 * d
  | _ => 0

theorem u32_roundtrip (n : Nat) (h : n < 4294967296) :
    u32FromList (u32le n) = n := by
  simp only [u32le, u32FromList]
  omega

theorem u32le_length (n : Nat) : (u32le n).length = 4 := rfl

/-- `SamsungProtocol.send_packet`: the byte string written to the OUT
endpoint, `header + data` with `header = struct.pack("<II", type, len)`. -/
def send_packet (packet_type : PacketType) (data : Payload) : List Nat :=
  (u32le packet_type.val ++ u32le data.length) ++ data

/-- `SamsungProtocol.receive_packet`.  `reads` is the queue of results of the
successive `endpoint_in.read` calls; `none` models a read that raises.  The
source reads an 8-byte header, rejects short headers, parses the two
little-endian words, converts the first through `PacketType(...)` (a
`ValueError` is swallowed by the `except` into `(None, b"")`), and performs a
second read for the payload only when the length word is positive. -/
def receive_packet (reads : List (Option (List Nat))) : Option PacketType × Payload :=
  match reads with
  | some header :: rest =>
    if header.length < 8 then (none, [])
    else
      let packet_type_val := u32FromList (header.take 4)
      let data_length := u32FromList ((header.drop 4).take 4)
      match PacketType.ofNat? packet_type_val with
      | none => (none, [])
      | some packet_type =>
        if 0 < data_length then
          match rest with
          | some d :: _ => (some packet_type, d)
          | _ => (none, [])
        else (some packet_type, [])
  | _ => (none, [])

theorem PacketType.ofNat?_val (t : PacketType) : PacketType.ofNat? t.val = some t := by
  cases t <;> rfl

theorem PacketType.val_lt (t : PacketType) : t.val < 4294967296 := by
  cases t <;> decide

theorem PacketType.ofNat?_eq_none (n : Nat) (h : 8 < n) : PacketType.ofNat? n = none := by
  unfold PacketType.ofNat?
  repeat rw [if_neg (by omega)]

/-- `FlashProgress` dataclass from the source.  `percentage` is modelled as a
rational (`(bytes_sent / total_bytes) * 100` in the source). -/
structure FlashProgress where
  current_bytes : Nat
  total_bytes : Nat
  current_file : String
  stage : String
  percentage : ℚ
deriving DecidableEq

/-- Session-level state of a `SamsungProtocol` object together with its
transport.  `session_active` is the flag of the source object; `script` is the
queue of reply frames the device will produce (one entry per
`receive_packet` call, `(none, [])` for a failed receive such as a timeout);
`sent` collects the frames written out, in order; `progressLog` collects the
progress-callback invocations, in order. -/
structure Sess where
  session_active : Bool
  script : List (Option PacketType × Payload)
  sent : List (PacketType × Payload)
  progressLog : List FlashProgress
deriving DecidableEq

/-- Frame-level view of `send_packet` at session level: the frame is written
out (sends succeed; send failures are not needed by any claim). -/
def writeFrame (t : PacketType) (d : Payload) (s : Sess) : Sess :=
  { s with sent := s.sent ++ [(t, d)] }

/-- Frame-level view of `receive_packet` at session level: pop the next reply
of the device script; an exhausted script behaves like a timeout. -/
def readReply (s : Sess) : (Option PacketType × Payload) × Sess :=
  match s.script with
  | [] => ((none, []), s)
  | r :: rest => (r, { s with script := rest })

/-- `SamsungProtocol.handshake`: send an empty HANDSHAKE frame, require a
HANDSHAKE-typed reply; on success set `session_active`. -/
def handshake (s : Sess) : Bool × Sess :=
  let s1 := writeFrame .HANDSHAKE [] s
  let (r, s2) := readReply s1
  if r.1 = some PacketType.HANDSHAKE then (true, { s2 with session_active := true })
  else (false, s2)

/-- `chunk_size = 1024 * 1024` from `flash_partition`. -/
def chunk_size : Nat := 1024 * 1024

/-- One progress record as built inside the chunk loop of `flash_partition`. -/
def mkProgress (current total : Nat) (name : String) : FlashProgress :=
  { current_bytes := current
    total_bytes := total
    current_file := name
    stage := "Enviando dados"
    percentage := ((current : ℚ) / (total : ℚ)) * 100 }

/-- The `while bytes_sent < total_bytes` loop of `flash_partition`:
`remaining = data[bytes_sent:]`, so the guard `bytes_sent < total_bytes` is
`remaining ≠ []`.  Each iteration sends one FLASH_SEND_DATA frame of at most
`chunk_size` bytes, requires a FLASH_SEND_DATA-typed reply, and then emits a
progress record. -/
def flashChunks (name : String) (total : Nat) (remaining : Payload) (bytes_sent : Nat)
    (s : Sess) : Bool × Sess :=
  match remaining with
  | [] => (true, s)
  | a :: t =>
    let chunk := (a :: t).take chunk_size
    let s1 := writeFrame .FLASH_SEND_DATA chunk s
    let (r, s2) := readReply s1
    if r.1 = some PacketType.FLASH_SEND_DATA then
      let newSent := bytes_sent + chunk.length
      let s3 := { s2 with progressLog := s2.progressLog ++ [mkProgress newSent total name] }
      flashChunks name total ((a :: t).drop chunk_size) newSent s3
    else (false, s2)
termination_by remaining.length
decreasing_by
  simp only [List.length_drop, List.length_cons, chunk_size]
  omega

/-- Body of `flash_partition` after the session check: pack the u32-le byte
count (a `struct.error` for `total_bytes ≥ 2^32` propagates to the enclosing
`except`, which returns `False` before any frame is written), send
FLASH_SET_TOTAL_BYTES, require a reply of the same type, then run the chunk
loop.  Chunk frames themselves only ever pack lengths up to `chunk_size`. -/
def flashBody (name : String) (data : Payload) (s : Sess) : Bool × Sess :=
  let total_bytes := data.length
  match packU32? total_bytes with
  | none => (false, s)
  | some packed =>
    let s1 := writeFrame .FLASH_SET_TOTAL_BYTES packed s
    let (r, s2) := readReply s1
    if r.1 = some PacketType.FLASH_SET_TOTAL_BYTES then
      flashChunks name total_bytes data 0 s2
    else (false, s2)

/-- `SamsungProtocol.flash_partition`: when no session is active, run
`handshake` first and return `False` if it fails; otherwise (or on handshake
success) run the flash body. -/
def flash_partition (name : String) (data : Payload) (s : Sess) : Bool × Sess :=
  if s.session_active then flashBody name data s
  else
    match handshake s with
    | (true, s1) => flashBody name data s1
    | (false, s1) => (false, s1)

/-- Body of `get_pit_data` after the session check. -/
def pitBody (s : Sess) : Option Payload × Sess :=
  let s1 := writeFrame .PIT_FILE [] s
  let (r, s2) := readReply s1
  if r.1 = some PacketType.PIT_FILE then (some r.2, s2) else (none, s2)

/-- `SamsungProtocol.get_pit_data`. -/
def get_pit_data (s : Sess) : Option Payload × Sess :=
  if s.session_active then pitBody s
  else
    match handshake s with
    | (true, s1) => pitBody s1
    | (false, s1) => (none, s1)

/-- Body of `get_device_info` after the session check.  The source formats the
two parsed u32 words as hex strings; the model keeps the parsed numbers. -/
def infoBody (s : Sess) : List (String × Nat) × Sess :=
  let s1 := writeFrame .DEVICE_TYPE [] s
  let (r, s2) := readReply s1
  let info :=
    if r.1 = some PacketType.DEVICE_TYPE ∧ r.2 ≠ [] then
      (if 4 ≤ r.2.length then [("device_type", u32FromList (r.2.take 4))] else []) ++
      (if 8 ≤ r.2.length then [("bootloader_version", u32FromList ((r.2.drop 4).take 4))] else [])
    else []
  (info, s2)

/-- `SamsungProtocol.get_device_info`. -/
def get_device_info (s : Sess) : List (String × Nat) × Sess :=
  if s.session_active then infoBody s
  else
    match handshake s with
    | (true, s1) => infoBody s1
    | (false, s1) => ([], s1)

/-- Python `str.lower()` (ASCII case folding, as used on hex digests and
archive member names). -/
def strLower (s : String) : String := String.mk (s.data.map Char.toLower)

/-- Python `str.upper()` (ASCII case folding). -/
def strUpper (s : String) : String := String.mk (s.data.map Char.toUpper)

/-- Abstract view of the filesystem used by `verify_firmware_integrity`:
existence test, text read and binary read; `none` models a raised `OSError`
(caught by the source and turned into `False`). -/
structure FileSystem where
  pathExists : String → Bool
  readText : String → Option String
  readBytes : String → Option (List Nat)

/-- `f.read().strip().split()[0]` from `verify_firmware_integrity`: the first
whitespace-delimited token of the sidecar text, or `none` for the `IndexError`
raised when the text holds no token. -/
def pyFirstToken (txt : String) : Option String :=
  let rest := txt.data.dropWhile Char.isWhitespace
  match rest with
  | [] => none
  | _ => some (String.mk (rest.takeWhile (fun c => !c.isWhitespace)))

/-- `FirmwareParser.verify_firmware_integrity`.  `md5Hex` abstracts
`hashlib.md5(...).hexdigest()` (its digests are irrelevant to the claims,
which are parametric in the hash). -/
def verify_firmware_integrity (md5Hex : List Nat → String) (fs : FileSystem)
    (file_path : String) : Bool :=
  let md5_file := file_path ++ ".md5"
  if fs.pathExists md5_file then
    match fs.readText md5_file with
    | none => false
    | some txt =>
      match pyFirstToken txt with
      | none => false
      | some expected_md5 =>
        match fs.readBytes file_path with
        | none => false
        | some contents => strLower (md5Hex contents) == strLower expected_md5
  else true

/-- Does `pat` occur at the head of the list? -/
def listStartsWith : List Char → List Char → Bool
  | [], _ => true
  | _ :: _, [] => false
  | p :: ps, c :: cs => p == c && listStartsWith ps cs

/-- Python substring test `pat in hay` over character lists. -/
def listContainsSub (pat : List Char) : List Char → Bool
  | [] => listStartsWith pat []
  | c :: cs => listStartsWith pat (c :: cs) || listContainsSub pat cs

/-- Python substring test `pat in hay` on strings. -/
def substrIn (pat hay : String) : Bool := listContainsSub pat.data hay.data

/-- Index of the last occurrence of `c` in `l` (Python `str.rfind`), if any. -/
def rfindIdx (c : Char) (l : List Char) : Option Nat :=
  match l.reverse.findIdx? (fun x => x == c) with
  | none => none
  | some i => some (l.length - 1 - i)

/-- The root part of `os.path.splitext(p)` (POSIX rules): cut at the last dot
provided it lies after the last slash and the basename has a non-dot character
before it (leading dots of the basename never start an extension). -/
def splitextRoot (p : String) : String :=
  let l := p.data
  let fnStart : Nat :=
    match rfindIdx '/' l with
    | none => 0
    | some i => i + 1
  match rfindIdx '.' l with
  | none => p
  | some d =>
    if fnStart ≤ d ∧ ((l.drop fnStart).take (d - fnStart)).any (fun c => c != '.') then
      String.mk (l.take d)
    else p

/-- `os.path.basename` (POSIX): the part after the last slash. -/
def pyBasename (p : String) : String :=
  match rfindIdx '/' p.data with
  | none => p
  | some i => String.mk (p.data.drop (i + 1))

/-- The slot-classification chain from the body of
`FirmwareParser.parse_tar_firmware`: case-insensitive substring matches on the
member name, in source order, else the uppercased member name without its
extension. -/
def classify_filename (name : String) : String :=
  let filename := strLower name
  if substrIn "boot" filename then "BOOT"
  else if substrIn "recovery" filename then "RECOVERY"
  else if substrIn "system" filename then "SYSTEM"
  else if substrIn "userdata" filename then "USERDATA"
  else if substrIn "cache" filename then "CACHE"
  else if substrIn "modem" filename || substrIn "cp" filename then "MODEM"
  else if substrIn "sboot" filename || substrIn "bl" filename then "BOOTLOADER"
  else strUpper (splitextRoot name)

/-- A tar archive member: its name, whether `member.isfile()`, and the bytes
`tar.extractfile(member).read()` would return. -/
structure TarMember where
  name : String
  isfile : Bool
  data : List Nat

/-- Assignment `d[k] = v` on a Python dict kept as an ordered association
list: replace the value of an existing key in place, else append. -/
def dictInsert : List (String × List Nat) → String → List Nat → List (String × List Nat)
  | [], k, v => [(k, v)]
  | (q, w) :: rest, k, v =>
    if q == k then (k, v) :: rest else (q, w) :: dictInsert rest k v

/-- Dict lookup `d[k]` (or `None` when the key is absent). -/
def dictLookup : List (String × List Nat) → String → Option (List Nat)
  | [], _ => none
  | (q, w) :: rest, k => if q == k then some w else dictLookup rest k

/-- The member loop of `parse_tar_firmware`, threading the `firmware_data`
dict. -/
def parseTarAux (acc : List (String × List Nat)) : List TarMember → List (String × List Nat)
  | [] => acc
  | m :: rest =>
    if m.isfile then parseTarAux (dictInsert acc (classify_filename m.name) m.data) rest
    else parseTarAux acc rest

/-- `FirmwareParser.parse_tar_firmware` on the member list of the archive. -/
def parse_tar_firmware (members : List TarMember) : List (String × List Nat) :=
  parseTarAux [] members

/-- The priority table of §4.6 of the specification: pattern lists with their
slots, first match wins. -/
def slotRules : List (List String × String) :=
  [(["boot"], "BOOT"), (["recovery"], "RECOVERY"), (["system"], "SYSTEM"),
   (["userdata"], "USERDATA"), (["cache"], "CACHE"), (["modem", "cp"], "MODEM"),
   (["sboot", "bl"], "BOOTLOADER")]

/-- First slot of the priority table one of whose patterns occurs in `lname`. -/
def matchSlot (lname : String) : Option String :=
  slotRules.findSome? (fun r => if r.1.any (fun pat => substrIn pat lname) then some r.2 else none)

/-- Modelled from the claim wording: classification with the fallback slot
being the uppercased BASENAME of the member without its extension. -/
def specClassifyClaim (p : String) : String :=
  match matchSlot (strLower p) with
  | some slot => slot
  | none => strUpper (splitextRoot (pyBasename p))

/-- The claim amended to the source behaviour: the fallback slot is the
uppercased full member name (directories included) without its extension. -/
def specClassifyAmended (p : String) : String :=
  match matchSlot (strLower p) with
  | some slot => slot
  | none => strUpper (splitextRoot p)

/-- The successive chunks `data[offset : offset + chunk_size]` that the loop
of `flash_partition` sends. -/
def chunksOf (l : Payload) : List Payload :=
  match l with
  | [] => []
  | a :: t => ((a :: t).take chunk_size) :: chunksOf ((a :: t).drop chunk_size)
termination_by l.length
decreasing_by
  simp only [List.length_drop, List.length_cons, chunk_size]
  omega

/-- The successive progress records the loop of `flash_partition` emits. -/
def progressOf (name : String) (total bytes_sent : Nat) (l : Payload) : List FlashProgress :=
  match l with
  | [] => []
  | a :: t =>
    mkProgress (bytes_sent + ((a :: t).take chunk_size).length) total name ::
      progressOf name total (bytes_sent + ((a :: t).take chunk_size).length)
        ((a :: t).drop chunk_size)
termination_by l.length
decreasing_by
  simp only [List.length_drop, List.length_cons, chunk_size]
  omega

theorem chunksOf_length (l : Payload) :
    (chunksOf l).length = (l.length + chunk_size - 1) / chunk_size := by
  induction l using chunksOf.induct with
  | case1 => simp [chunksOf, chunk_size]
  | case2 a t ih =>
    rw [chunksOf]
    simp only [List.length_cons, List.length_drop, List.length_take] at ih ⊢
    rw [ih]
    simp only [chunk_size] at *
    omega

theorem chunksOf_sum (l : Payload) :
    ((chunksOf l).map List.length).sum = l.length := by
  induction l using chunksOf.induct with
  | case1 => simp [chunksOf]
  | case2 a t ih =>
    rw [chunksOf]
    simp only [List.map_cons, List.sum_cons, List.length_take, List.length_drop,
      List.length_cons] at ih ⊢
    rw [ih]
    simp only [chunk_size] at *
    omega

theorem getLast?_cons_of_ne_nil {α : Type} (a : α) (l : List α) (h : l ≠ []) :
    (a :: l).getLast? = l.getLast? := by
  cases l with
  | nil => exact absurd rfl h
  | cons b u => exact List.getLast?_cons_cons

theorem progressOf_ne_nil (name : String) (total bytes_sent : Nat) (a : Nat) (t : Payload) :
    progressOf name total bytes_sent (a :: t) ≠ [] := by
  rw [progressOf]
  simp

theorem progressOf_last_aux (name : String) (total : Nat) :
    ∀ (n : Nat) (l : Payload) (bytes_sent : Nat), l.length ≤ n → l ≠ [] →
    total = bytes_sent + l.length →
    (progressOf name total bytes_sent l).getLast?.map
      (fun p => (p.current_bytes, p.total_bytes)) = some (total, total) := by
  intro n
  induction n with
  | zero =>
    intro l bs hn hl ht
    rcases l with _ | ⟨a, t⟩
    · exact absurd rfl hl
    · simp at hn
  | succ n ih =>
    intro l bs hn hl ht
    rcases l with _ | ⟨a, t⟩
    · exact absurd rfl hl
    · rw [progressOf]
      rcases hdrop : (a :: t).drop chunk_size with _ | ⟨b, u⟩
      · have hLC : t.length + 1 ≤ chunk_size := by
          have hld := congrArg List.length hdrop
          simp only [List.length_drop, List.length_nil, List.length_cons] at hld
          omega
        have htake : ((a :: t).take chunk_size).length = t.length + 1 := by
          simp only [List.length_take, List.length_cons]
          omega
        rw [show progressOf name total (bs + (List.take chunk_size (a :: t)).length) []
              = [] from by simp [progressOf]]
        rw [htake]
        simp only [mkProgress, List.getLast?_singleton, Option.map_some',
          Option.some.injEq, Prod.mk.injEq]
        have hlen : (a :: t).length = t.length + 1 := by simp
        rw [hlen] at ht
        exact ⟨ht.symm, trivial⟩
      · have hgt : chunk_size < (a :: t).length := by
          have hld := congrArg List.length hdrop
          simp only [List.length_drop, List.length_cons] at hld ⊢
          omega
        rw [getLast?_cons_of_ne_nil _ _ (progressOf_ne_nil name total _ b u)]
        refine ih (b :: u) _ ?_ (by exact List.cons_ne_nil b u) ?_
        · have hld := congrArg List.length hdrop
          have hcs : 1 ≤ chunk_size := by decide
          simp only [List.length_drop, List.length_cons] at hld hn hgt ⊢
          omega
        · have hld := congrArg List.length hdrop
          simp only [List.length_drop, List.length_cons] at hld ht hgt ⊢
          simp only [List.length_take, List.length_cons]
          omega

theorem progressOf_last (name : String) (total bytes_sent : Nat) (l : Payload)
    (hl : l ≠ []) (ht : total = bytes_sent + l.length) :
    (progressOf name total bytes_sent l).getLast?.map
      (fun p => (p.current_bytes, p.total_bytes)) = some (total, total) :=
  progressOf_last_aux name total l.length l bytes_sent (Nat.le_refl _) hl ht

theorem flashChunks_spec_aux (name : String) (total : Nat) :
    ∀ (n : Nat) (l : Payload) (bytes_sent : Nat) (sa : Bool)
      (sc rest : List (Option PacketType × Payload)) (se : List (PacketType × Payload))
      (pl : List FlashProgress),
    l.length ≤ n →
    sc = List.replicate (chunksOf l).length
        (some PacketType.FLASH_SEND_DATA, ([] : Payload)) ++ rest →
    flashChunks name total l bytes_sent ⟨sa, sc, se, pl⟩ =
      (true, ⟨sa, rest,
        se ++ (chunksOf l).map (fun c => (PacketType.FLASH_SEND_DATA, c)),
        pl ++ progressOf name total bytes_sent l⟩) := by
  intro n
  induction n with
  | zero =>
    intro l bs sa sc rest se pl hn hs
    have hl : l = [] := by
      cases l with
      | nil => rfl
      | cons a t => simp at hn
    subst hl
    subst hs
    rw [flashChunks]
    simp [chunksOf, progressOf]
  | succ n ih =>
    intro l bs sa sc rest se pl hn hs
    cases l with
    | nil =>
      subst hs
      rw [flashChunks]
      simp [chunksOf, progressOf]
    | cons a t =>
      have hch : chunksOf (a :: t) =
          ((a :: t).take chunk_size) :: chunksOf ((a :: t).drop chunk_size) := by
        rw [chunksOf]
      have hpr : progressOf name total bs (a :: t) =
          mkProgress (bs + ((a :: t).take chunk_size).length) total name ::
            progressOf name total (bs + ((a :: t).take chunk_size).length)
              ((a :: t).drop chunk_size) := by
        rw [progressOf]
      subst hs
      rw [flashChunks, hch, hpr]
      simp only [List.length_cons, List.replicate_succ, List.cons_append,
        writeFrame, readReply]
      simp only [reduceIte]
      rw [ih ((a :: t).drop chunk_size) (bs + ((a :: t).take chunk_size).length) sa _ rest
        (se ++ [(PacketType.FLASH_SEND_DATA, (a :: t).take chunk_size)])
        (pl ++ [mkProgress (bs + ((a :: t).take chunk_size).length) total name])
        (by
          simp only [List.length_drop, List.length_cons]
          have hcs : 1 ≤ chunk_size := by decide
          simp only [List.length_cons] at hn
          omega)
        rfl]
      simp [List.append_assoc]

theorem flashChunks_active_aux (name : String) (total : Nat) :
    ∀ (n : Nat) (l : Payload) (bytes_sent : Nat) (s : Sess), l.length ≤ n →
    ((flashChunks name total l bytes_sent s).2).session_active = s.session_active := by
  intro n
  induction n with
  | zero =>
    intro l bs s hn
    have hl : l = [] := by
      cases l with
      | nil => rfl
      | cons a t => simp at hn
    subst hl
    rw [flashChunks]
  | succ n ih =>
    intro l bs s hn
    cases l with
    | nil => rw [flashChunks]
    | cons a t =>
      obtain ⟨sa, sc, se, pl⟩ := s
      rw [flashChunks]
      cases sc with
      | nil => simp [writeFrame, readReply]
      | cons r rest =>
        simp only [writeFrame, readReply]
        by_cases hr : r.1 = some PacketType.FLASH_SEND_DATA
        · simp only [hr, if_true, reduceIte]
          refine (ih ((a :: t).drop chunk_size) _ _ ?_).trans rfl
          have hcs : 1 ≤ chunk_size := by decide
          simp only [List.length_drop, List.length_cons]
          simp only [List.length_cons] at hn
          omega
        · simp [hr]

theorem flashChunks_active (name : String) (total : Nat) (l : Payload) (bytes_sent : Nat)
    (s : Sess) :
    ((flashChunks name total l bytes_sent s).2).session_active = s.session_active :=
  flashChunks_active_aux name total l.length l bytes_sent s (Nat.le_refl _)

theorem dictLookup_insert_self (d : List (String × List Nat)) (k : String) (v : List Nat) :
    dictLookup (dictInsert d k v) k = some v := by
  induction d with
  | nil => simp [dictInsert, dictLookup]
  | cons kv rest ih =>
    obtain ⟨q, w⟩ := kv
    by_cases hq : q = k
    · subst hq
      simp [dictInsert, dictLookup]
    · have hb : (q == k) = false := by simpa using hq
      simp [dictInsert, dictLookup, hb, ih]

theorem dictLookup_insert_ne (d : List (String × List Nat)) (k q : String) (v : List Nat)
    (h : k ≠ q) : dictLookup (dictInsert d k v) q = dictLookup d q := by
  have hb : (k == q) = false := by simpa using h
  induction d with
  | nil => simp [dictInsert, dictLookup, hb]
  | cons kv rest ih =>
    obtain ⟨p, w⟩ := kv
    by_cases hp : p = k
    · subst hp
      simp [dictInsert, dictLookup, hb]
    · have hpb : (p == k) = false := by simpa using hp
      simp [dictInsert, dictLookup, hpb, ih]

theorem getLast?_cons_eq {α : Type} (a : α) (l : List α) :
    (a :: l).getLast? = match l.getLast? with | none => some a | some b => some b := by
  cases l with
  | nil => rfl
  | cons b u =>
    have h1 : (b :: u).getLast?.isSome := List.getLast?_isSome.mpr (by simp)
    obtain ⟨x, hx⟩ := Option.isSome_iff_exists.mp h1
    rw [List.getLast?_cons_cons, hx]

theorem parseTarAux_lookup (slot : String) :
    ∀ (ms : List TarMember) (acc : List (String × List Nat)),
    dictLookup (parseTarAux acc ms) slot =
      match (ms.filter
          (fun m => m.isfile && (classify_filename m.name == slot))).getLast? with
      | some m => some m.data
      | none => dictLookup acc slot := by
  intro ms
  induction ms with
  | nil =>
    intro acc
    simp [parseTarAux]
  | cons m rest ih =>
    intro acc
    by_cases hf : m.isfile = true
    · by_cases hc : classify_filename m.name = slot
      · have hcb : (classify_filename m.name == slot) = true := by simpa using hc
        rw [show parseTarAux acc (m :: rest) =
            parseTarAux (dictInsert acc (classify_filename m.name) m.data) rest from by
          simp [parseTarAux, hf]]
        rw [ih]
        rw [List.filter_cons, show (m.isfile && (classify_filename m.name == slot)) = true from by
          simp [hf, hcb]]
        simp only [if_true]
        rw [getLast?_cons_eq]
        cases hfr : (rest.filter
            (fun m => m.isfile && (classify_filename m.name == slot))).getLast? with
        | none =>
          simp only []
          rw [hc, dictLookup_insert_self]
        | some x =>
          simp only []
      · have hcb : (classify_filename m.name == slot) = false := by simpa using hc
        rw [show parseTarAux acc (m :: rest) =
            parseTarAux (dictInsert acc (classify_filename m.name) m.data) rest from by
          simp [parseTarAux, hf]]
        rw [ih]
        rw [List.filter_cons, show (m.isfile && (classify_filename m.name == slot)) = false from by
          simp [hcb]]
        simp only [if_false, Bool.false_eq_true]
        cases hfr : (rest.filter
            (fun m => m.isfile && (classify_filename m.name == slot))).getLast? with
        | none =>
          simp only []
          exact dictLookup_insert_ne acc (classify_filename m.name) slot m.data hc
        | some x =>
          simp only []
    · have hfb : m.isfile = false := by simpa using hf
      rw [show parseTarAux acc (m :: rest) = parseTarAux acc rest from by
        simp [parseTarAux, hfb]]
      rw [ih]
      rw [List.filter_cons, show (m.isfile && (classify_filename m.name == slot)) = false from by
        simp [hfb]]
      simp only [if_false, Bool.false_eq_true]

theorem classify_eq_specAmended (name : String) :
    classify_filename name = specClassifyAmended name := by
  by_cases h1 : substrIn "boot" (strLower name) = true
  · simp [classify_filename, specClassifyAmended, matchSlot, slotRules, h1]
  · by_cases h2 : substrIn "recovery" (strLower name) = true
    · simp [classify_filename, specClassifyAmended, matchSlot, slotRules, h1, h2]
    · by_cases h3 : substrIn "system" (strLower name) = true
      · simp [classify_filename, specClassifyAmended, matchSlot, slotRules, h1, h2, h3]
      · by_cases h4 : substrIn "userdata" (strLower name) = true
        · simp [classify_filename, specClassifyAmended, matchSlot, slotRules, h1, h2, h3, h4]
        · by_cases h5 : substrIn "cache" (strLower name) = true
          · simp [classify_filename, specClassifyAmended, matchSlot, slotRules,
              h1, h2, h3, h4, h5]
          · by_cases h6 : substrIn "modem" (strLower name) = true
            · simp [classify_filename, specClassifyAmended, matchSlot, slotRules,
                h1, h2, h3, h4, h5, h6]
            · by_cases h7 : substrIn "cp" (strLower name) = true
              · simp [classify_filename, specClassifyAmended, matchSlot, slotRules,
                  h1, h2, h3, h4, h5, h6, h7]
              · by_cases h8 : substrIn "sboot" (strLower name) = true
                · simp [classify_filename, specClassifyAmended, matchSlot, slotRules,
                    h1, h2, h3, h4, h5, h6, h7, h8]
                · by_cases h9 : substrIn "bl" (strLower name) = true
                  · simp [classify_filename, specClassifyAmended, matchSlot, slotRules,
                      h1, h2, h3, h4, h5, h6, h7, h8, h9]
                  · simp [classify_filename, specClassifyAmended, matchSlot, slotRules,
                      h1, h2, h3, h4, h5, h6, h7, h8, h9]

theorem receive_packet_frame (t : PacketType) (payload : Payload)
    (more : List (Option (List Nat))) (h : payload.length < 4294967296) :
    receive_packet (some (u32le t.val ++ u32le payload.length) :: some payload :: more)
      = (some t, payload) := by
  have e1 : (u32le t.val ++ u32le payload.length).take 4 = u32le t.val := rfl
  have e2 : ((u32le t.val ++ u32le payload.length).drop 4).take 4
      = u32le payload.length := rfl
  have e3 : (u32le t.val ++ u32le payload.length).length = 8 := rfl
  simp only [receive_packet, e1, e2, e3, u32_roundtrip t.val (PacketType.val_lt t),
    u32_roundtrip payload.length h, PacketType.ofNat?_val]
  rcases payload with _ | ⟨p, ps⟩
  · simp
  · simp

/-- C2: for every packet type of the wire table and every payload shorter than
`2^32` bytes, decoding the frame bytes produced by `send_packet`
(u32-le type, u32-le length, payload — delivered to `receive_packet` as a
header read followed by a payload read) yields back exactly the same
`(type, payload)` pair. -/
theorem frame_roundtrip (t : PacketType) (payload : Payload)
    (h : payload.length < 4294967296) :
    receive_packet [some ((send_packet t payload).take 8),
      some ((send_packet t payload).drop 8)] = (some t, payload) := by
  have hhd : (send_packet t payload).take 8 = u32le t.val ++ u32le payload.length := by
    unfold send_packet
    rw [show (8 : Nat) = (u32le t.val ++ u32le payload.length).length from rfl]
    exact List.take_left _ _
  have htl : (send_packet t payload).drop 8 = payload := by
    unfold send_packet
    rw [show (8 : Nat) = (u32le t.val ++ u32le payload.length).length from rfl]
    exact List.drop_left _ _
  rw [hhd, htl]
  exact receive_packet_frame t payload [] h

/-- C2 witness: the round trip at a concrete frame. -/
theorem frame_roundtrip_witness :
    receive_packet [some ((send_packet PacketType.FLASH_SEND_DATA [171, 205, 239]).take 8),
      some ((send_packet PacketType.FLASH_SEND_DATA [171, 205, 239]).drop 8)]
      = (some PacketType.FLASH_SEND_DATA, [171, 205, 239]) :=
  frame_roundtrip PacketType.FLASH_SEND_DATA [171, 205, 239] (by decide)

/-- C9: `receive_packet` is total over its error cases: an 8-byte header whose
type code is none of the nine known packet types (0 through 8), a header read
of fewer than 8 bytes, and a failed (raising) header read all yield
`(none, b"")`, so an unknown-type reply is indistinguishable from a transport
failure to the caller. -/
theorem receive_error_collapse :
    (∀ (header : List Nat) (rest : List (Option (List Nat))),
        header.length = 8 → 8 < u32FromList (header.take 4) →
        receive_packet (some header :: rest) = (none, [])) ∧
    (∀ (header : List Nat) (rest : List (Option (List Nat))),
        header.length < 8 →
        receive_packet (some header :: rest) = (none, [])) ∧
    (∀ (rest : List (Option (List Nat))),
        receive_packet (none :: rest) = (none, [])) := by
  refine ⟨?_, ?_, ?_⟩
  · intro header rest h8 hbig
    simp only [receive_packet, h8]
    rw [if_neg (by omega)]
    rw [PacketType.ofNat?_eq_none _ hbig]
  · intro header rest h8
    simp only [receive_packet]
    rw [if_pos h8]
  · intro rest
    rfl

/-- C9 witness: the three error cases at concrete reads, all equal to the
transport-failure result. -/
theorem receive_error_collapse_witness :
    receive_packet [some [9, 0, 0, 0, 0, 0, 0, 0]] = (none, []) ∧
    receive_packet [some [0, 0, 0]] = (none, []) ∧
    receive_packet [none] = (none, []) :=
  ⟨receive_error_collapse.1 [9, 0, 0, 0, 0, 0, 0, 0] [] (by decide) (by decide),
   receive_error_collapse.2.1 [0, 0, 0] [] (by decide),
   receive_error_collapse.2.2 []⟩

/-- C6: with a sidecar file `path + ".md5"` present whose first
whitespace-delimited token is `D`, `verify_firmware_integrity` returns valid
iff the MD5 hex digest of the file contents equals `D` case-insensitively;
with no sidecar file it returns valid. -/
theorem md5_sidecar_verdict (md5Hex : List Nat → String) (fs : FileSystem)
    (file_path : String) :
    (fs.pathExists (file_path ++ ".md5") = false →
        verify_firmware_integrity md5Hex fs file_path = true) ∧
    (∀ (txt D : String) (contents : List Nat),
        fs.pathExists (file_path ++ ".md5") = true →
        fs.readText (file_path ++ ".md5") = some txt →
        pyFirstToken txt = some D →
        fs.readBytes file_path = some contents →
        (verify_firmware_integrity md5Hex fs file_path = true ↔
          strLower (md5Hex contents) = strLower D)) := by
  constructor
  · intro h
    simp [verify_firmware_integrity, h]
  · intro txt D contents hex hrt hft hrb
    simp only [verify_firmware_integrity, hex, if_true, hrt, hft, hrb]
    exact beq_iff_eq

/-- Concrete filesystem for the C6 witness: a data file with a sidecar whose
digest token differs from the hash only in letter case. -/
def fsWitness : FileSystem :=
  { pathExists := fun p => p == "fw.bin.md5"
    readText := fun p => if p == "fw.bin.md5" then some "  abBA12 fw.bin" else none
    readBytes := fun p => if p == "fw.bin" then some [1, 2, 3] else none }

/-- Fixed hash function for the C6 witness. -/
def md5HexWitness : List Nat → String := fun _ => "ABba12"

/-- C6 witness: the sidecar verdict at the concrete filesystem. -/
theorem md5_sidecar_verdict_witness :
    verify_firmware_integrity md5HexWitness fsWitness "fw.bin" = true :=
  ((md5_sidecar_verdict md5HexWitness fsWitness "fw.bin").2 "  abBA12 fw.bin" "abBA12"
    [1, 2, 3] (by decide) (by decide) (by decide) (by decide)).mpr (by decide)

/-- C7 counterexample: for the archive member `d/odd.bin`, which matches no
pattern of the table, the parser's slot is the uppercased full member name
without extension (`D/ODD`), not the uppercased basename without extension
(`ODD`) that the claim states. -/
theorem tar_slot_fallback_cex :
    parse_tar_firmware [⟨"d/odd.bin", true, [1]⟩] = [("D/ODD", [1])] ∧
    specClassifyClaim "d/odd.bin" = "ODD" := by
  constructor
  · decide
  · decide

/-- C7 (amended): the parser assigns each regular-file member the slot given
by the case-insensitive first-match priority table boot, recovery, system,
userdata, cache, (modem|cp), (sboot|bl); for a member matching none of these
the slot is the uppercased full member name (directories included) without
its extension. -/
theorem tar_slot_classification (name : String) (data : List Nat) :
    parse_tar_firmware [⟨name, true, data⟩] = [(specClassifyAmended name, data)] := by
  simp [parse_tar_firmware, parseTarAux, dictInsert, classify_eq_specAmended name]

/-- C10: when several regular-file members classify to the same slot, the
parser's mapping binds the slot to the bytes of the member occurring latest in
archive order (earlier members' bytes are overwritten). -/
theorem tar_duplicate_slot_latest_wins (members : List TarMember) (slot : String) :
    dictLookup (parse_tar_firmware members) slot
      = ((members.filter
          (fun m => m.isfile && (classify_filename m.name == slot))).getLast?).map
        TarMember.data := by
  rw [parse_tar_firmware, parseTarAux_lookup slot members []]
  cases hfr : (members.filter
      (fun m => m.isfile && (classify_filename m.name == slot))).getLast? with
  | none => simp [dictLookup]
  | some x => simp

/-- C8: invoked with `session_active = false`, each of `flash_partition`,
`get_pit_data` and `get_device_info` first performs a handshake itself; if
that handshake fails it returns its failure value (`False`, `None`, `{}`) in
the post-handshake state, and if it succeeds it proceeds with its normal body
from the handshaken state; no illegal-state error is ever reported. -/
theorem ops_auto_handshake (s : Sess) (name : String) (data : Payload)
    (h : s.session_active = false) :
    ((handshake s).1 = false →
        flash_partition name data s = (false, (handshake s).2) ∧
        get_pit_data s = (none, (handshake s).2) ∧
        get_device_info s = ([], (handshake s).2)) ∧
    ((handshake s).1 = true →
        flash_partition name data s = flashBody name data (handshake s).2 ∧
        get_pit_data s = pitBody (handshake s).2 ∧
        get_device_info s = infoBody (handshake s).2) := by
  constructor
  · intro hh
    rcases he : handshake s with ⟨b, s1⟩
    rw [he] at hh
    simp only [] at hh
    subst hh
    refine ⟨?_, ?_, ?_⟩ <;>
      simp [flash_partition, get_pit_data, get_device_info, h, he]
  · intro hh
    rcases he : handshake s with ⟨b, s1⟩
    rw [he] at hh
    simp only [] at hh
    subst hh
    refine ⟨?_, ?_, ?_⟩ <;>
      simp [flash_partition, get_pit_data, get_device_info, h, he]

/-- Fresh disconnected-style session whose device never answers (empty reply
script), used as the C8 witness input. -/
def idleSess : Sess := ⟨false, [], [], []⟩

/-- C8 witness: with no session and a silent device, all three operations run
the handshake themselves and return their failure values. -/
theorem ops_auto_handshake_witness :
    flash_partition "AP" [1] idleSess = (false, (handshake idleSess).2) ∧
    get_pit_data idleSess = (none, (handshake idleSess).2) ∧
    get_device_info idleSess = ([], (handshake idleSess).2) :=
  (ops_auto_handshake idleSess "AP" [1] rfl).1 (by decide)

/-- The session of spec scenario S4: no session active, the device answers
the HANDSHAKE frame with a frame of type 5 (END_SESSION). -/
def mismatchHs : Sess := ⟨false, [(some PacketType.END_SESSION, [])], [], []⟩

/-- C3 counterexample: after the mismatched handshake, the subsequent
`flash_partition` call does not report an illegal state without I/O — it
writes another HANDSHAKE frame (so two in total) and merely returns `False`. -/
theorem handshake_mismatch_cex :
    (handshake mismatchHs).1 = false ∧
    (handshake mismatchHs).2.session_active = false ∧
    (flash_partition "AP" [7] (handshake mismatchHs).2).1 = false ∧
    (flash_partition "AP" [7] (handshake mismatchHs).2).2.sent
      = [(PacketType.HANDSHAKE, []), (PacketType.HANDSHAKE, [])] := by
  refine ⟨by decide, by decide, by decide, by decide⟩

/-- C3 (amended): on a reply of the wrong type the handshake fails (returns
`False`) and the session stays inactive; a subsequent `flash_partition` on
that session re-runs the handshake itself — writing one more HANDSHAKE frame
and no flash frame — and returns `False` when it fails again, rather than
reporting an illegal-state error. -/
theorem handshake_mismatch_behavior (s : Sess) (r : Option PacketType × Payload)
    (rest : List (Option PacketType × Payload)) (name : String) (data : Payload)
    (h : s.session_active = false) (hs : s.script = r :: rest)
    (hr : r.1 ≠ some PacketType.HANDSHAKE) :
    handshake s
      = (false, { s with script := rest, sent := s.sent ++ [(PacketType.HANDSHAKE, [])] }) ∧
    (handshake s).2.session_active = false ∧
    flash_partition name data s
      = (false, { s with script := rest, sent := s.sent ++ [(PacketType.HANDSHAKE, [])] }) := by
  obtain ⟨sa, sc, se, pl⟩ := s
  have h2 : sa = false := h
  have hs2 : sc = r :: rest := hs
  subst h2
  subst hs2
  have h1 : handshake ⟨false, r :: rest, se, pl⟩
      = (false, ⟨false, rest, se ++ [(PacketType.HANDSHAKE, [])], pl⟩) := by
    simp [handshake, writeFrame, readReply, hr]
  exact ⟨h1, by rw [h1], by simp [flash_partition, h1]⟩

/-- C3 witness: the amended behaviour at the S4 session. -/
theorem handshake_mismatch_behavior_witness :
    handshake mismatchHs = (false, ⟨false, [], [(PacketType.HANDSHAKE, [])], []⟩) ∧
    (handshake mismatchHs).2.session_active = false ∧
    flash_partition "AP" [7] mismatchHs
      = (false, ⟨false, [], [(PacketType.HANDSHAKE, [])], []⟩) :=
  handshake_mismatch_behavior mismatchHs (some PacketType.END_SESSION, []) [] "AP" [7]
    rfl rfl (by decide)

/-- Handshaken session whose device answers the next request with a frame of
the wrong type (HANDSHAKE instead of the expected flash type). -/
def mismatchFlash : Sess := ⟨true, [(some PacketType.HANDSHAKE, [])], [], []⟩

/-- C4 counterexample: on a FLASH_SET_TOTAL_BYTES reply mismatch the
operation fails, but the session does not transition to closed —
`session_active` is still true afterwards. -/
theorem flash_mismatch_not_closed_cex :
    (flash_partition "X" [1] mismatchFlash).1 = false ∧
    (flash_partition "X" [1] mismatchFlash).2.session_active = true := by
  refine ⟨by decide, by decide⟩

theorem flashChunks_mismatch_aux (name : String) (total : Nat) :
    ∀ (n : Nat) (l : Payload) (bytes_sent : Nat) (sa : Bool)
      (sc rest : List (Option PacketType × Payload)) (se : List (PacketType × Payload))
      (pl : List FlashProgress) (r : Option PacketType × Payload) (k : Nat),
    l.length ≤ n →
    k < (chunksOf l).length →
    sc = List.replicate k (some PacketType.FLASH_SEND_DATA, ([] : Payload)) ++ r :: rest →
    r.1 ≠ some PacketType.FLASH_SEND_DATA →
    flashChunks name total l bytes_sent ⟨sa, sc, se, pl⟩
      = (false, ⟨sa, rest,
          se ++ ((chunksOf l).take (k + 1)).map (fun c => (PacketType.FLASH_SEND_DATA, c)),
          pl ++ (progressOf name total bytes_sent l).take k⟩) := by
  intro n
  induction n with
  | zero =>
    intro l bs sa sc rest se pl r k hn hk hs hr
    have hl : l = [] := by
      cases l with
      | nil => rfl
      | cons a t => simp at hn
    subst hl
    rw [show chunksOf ([] : Payload) = [] from by rw [chunksOf]] at hk
    simp at hk
  | succ n ih =>
    intro l bs sa sc rest se pl r k hn hk hs hr
    cases l with
    | nil =>
      rw [show chunksOf ([] : Payload) = [] from by rw [chunksOf]] at hk
      simp at hk
    | cons a t =>
      have hch : chunksOf (a :: t) =
          ((a :: t).take chunk_size) :: chunksOf ((a :: t).drop chunk_size) := by
        rw [chunksOf]
      have hpr : progressOf name total bs (a :: t) =
          mkProgress (bs + ((a :: t).take chunk_size).length) total name ::
            progressOf name total (bs + ((a :: t).take chunk_size).length)
              ((a :: t).drop chunk_size) := by
        rw [progressOf]
      subst hs
      cases k with
      | zero =>
        rw [flashChunks, hch]
        simp [writeFrame, readReply, hr]
      | succ k =>
        rw [flashChunks, hch, hpr]
        simp only [List.replicate_succ, List.cons_append, writeFrame, readReply,
          reduceIte]
        rw [ih ((a :: t).drop chunk_size) (bs + ((a :: t).take chunk_size).length) sa _
          rest (se ++ [(PacketType.FLASH_SEND_DATA, (a :: t).take chunk_size)])
          (pl ++ [mkProgress (bs + ((a :: t).take chunk_size).length) total name]) r k
          (by
            have hcs : 1 ≤ chunk_size := by decide
            simp only [List.length_drop, List.length_cons]
            simp only [List.length_cons] at hn
            omega)
          (by
            rw [hch] at hk
            simp only [List.length_cons] at hk
            omega)
          rfl hr]
        simp [List.append_assoc]

/-- C4 (amended): on a reply-type mismatch — for FLASH_SET_TOTAL_BYTES or for
any FLASH_SEND_DATA chunk — `flash_partition` fails for that partition with
no in-band retry (the failed frame is sent exactly once and nothing further),
but the session never transitions to closed: `session_active` is preserved by
every run from a handshaken session.  Reply mismatches presuppose a request
was sent, hence `data.length < 2^32`; for larger buffers `struct.pack`
raises, the `except` returns `False`, and no frame is sent at all. -/
theorem flash_mismatch_behavior (s : Sess) (name : String) (data : Payload)
    (h : s.session_active = true) :
    ((flash_partition name data s).2.session_active = true) ∧
    (∀ (r : Option PacketType × Payload) (rest : List (Option PacketType × Payload)),
        data.length < 4294967296 →
        s.script = r :: rest → r.1 ≠ some PacketType.FLASH_SET_TOTAL_BYTES →
        flash_partition name data s
          = (false, { s with
                      script := rest,
                      sent := s.sent ++
                        [(PacketType.FLASH_SET_TOTAL_BYTES, u32le data.length)] })) ∧
    (∀ (k : Nat) (r : Option PacketType × Payload)
        (rest : List (Option PacketType × Payload)),
        data.length < 4294967296 →
        k < (chunksOf data).length →
        s.script = (some PacketType.FLASH_SET_TOTAL_BYTES, ([] : Payload)) ::
          (List.replicate k (some PacketType.FLASH_SEND_DATA, ([] : Payload)) ++
            r :: rest) →
        r.1 ≠ some PacketType.FLASH_SEND_DATA →
        flash_partition name data s
          = (false, { s with
                      script := rest,
                      sent := s.sent ++
                        ((PacketType.FLASH_SET_TOTAL_BYTES, u32le data.length) ::
                          ((chunksOf data).take (k + 1)).map
                            (fun c => (PacketType.FLASH_SEND_DATA, c))),
                      progressLog := s.progressLog ++
                        (progressOf name data.length 0 data).take k })) ∧
    (4294967296 ≤ data.length → flash_partition name data s = (false, s)) := by
  obtain ⟨sa, sc, se, pl⟩ := s
  have h2 : sa = true := h
  subst h2
  refine ⟨?_, ?_, ?_, ?_⟩
  · by_cases hlen : data.length < 4294967296
    · cases sc with
      | nil => simp [flash_partition, flashBody, packU32?, hlen, writeFrame, readReply]
      | cons r rest =>
        by_cases hr : r.1 = some PacketType.FLASH_SET_TOTAL_BYTES
        · cases data with
          | nil =>
            simp [flash_partition, flashBody, packU32?, writeFrame, readReply, hr,
              flashChunks]
          | cons a t =>
            simp only [flash_partition, flashBody, packU32?, hlen, if_true, reduceIte,
              writeFrame, readReply, hr]
            rw [flashChunks_active]
        · simp [flash_partition, flashBody, packU32?, hlen, writeFrame, readReply, hr]
    · simp [flash_partition, flashBody, packU32?, hlen]
  · intro r rest hlen hsc hr
    have hsc2 : sc = r :: rest := hsc
    subst hsc2
    simp [flash_partition, flashBody, packU32?, hlen, writeFrame, readReply, hr]
  · intro k r rest hlen hk hsc hr
    have hsc2 : sc = (some PacketType.FLASH_SET_TOTAL_BYTES, ([] : Payload)) ::
        (List.replicate k (some PacketType.FLASH_SEND_DATA, ([] : Payload)) ++
          r :: rest) := hsc
    subst hsc2
    rw [show flash_partition name data
          ⟨true, (some PacketType.FLASH_SET_TOTAL_BYTES, ([] : Payload)) ::
            (List.replicate k (some PacketType.FLASH_SEND_DATA, ([] : Payload)) ++
              r :: rest), se, pl⟩
        = flashChunks name data.length data 0
          ⟨true, List.replicate k (some PacketType.FLASH_SEND_DATA, ([] : Payload)) ++
              r :: rest,
            se ++ [(PacketType.FLASH_SET_TOTAL_BYTES, u32le data.length)], pl⟩ from by
      simp [flash_partition, flashBody, packU32?, hlen, writeFrame, readReply]]
    rw [flashChunks_mismatch_aux name data.length data.length data 0 true _ rest
      (se ++ [(PacketType.FLASH_SET_TOTAL_BYTES, u32le data.length)]) pl r k
      (Nat.le_refl _) hk rfl hr]
    simp [List.append_assoc]
  · intro hlen
    have hlt : ¬ data.length < 4294967296 := by omega
    simp [flash_partition, flashBody, packU32?, hlt]

/-- Handshaken session whose device acknowledges the FLASH_SET_TOTAL_BYTES
request and then answers the first chunk with a frame of the wrong type. -/
def chunkMismatchSess : Sess :=
  ⟨true, [(some PacketType.FLASH_SET_TOTAL_BYTES, []), (some PacketType.HANDSHAKE, [])],
    [], []⟩

/-- C4 witness: the amended behaviour at concrete mismatching devices, for a
FLASH_SET_TOTAL_BYTES mismatch and for a FLASH_SEND_DATA chunk mismatch. -/
theorem flash_mismatch_behavior_witness :
    ((flash_partition "X" [1] mismatchFlash).2.session_active = true) ∧
    flash_partition "X" [1] mismatchFlash
      = (false, ⟨true, [], [(PacketType.FLASH_SET_TOTAL_BYTES, [1, 0, 0, 0])], []⟩) ∧
    flash_partition "Y" [9] chunkMismatchSess
      = (false, ⟨true, [], [(PacketType.FLASH_SET_TOTAL_BYTES, [1, 0, 0, 0]),
          (PacketType.FLASH_SEND_DATA, [9])], []⟩) := by
  have hch : chunksOf [9] = [[9]] := by
    rw [chunksOf, show chunk_size = 1048575 + 1 from rfl]
    simp [chunksOf]
  refine ⟨(flash_mismatch_behavior mismatchFlash "X" [1] rfl).1, ?_, ?_⟩
  · exact (flash_mismatch_behavior mismatchFlash "X" [1] rfl).2.1
      (some PacketType.HANDSHAKE, []) [] (by decide) rfl (by decide)
  · have happ := (flash_mismatch_behavior chunkMismatchSess "Y" [9] rfl).2.2.1 0
      (some PacketType.HANDSHAKE, []) [] (by decide)
      (by rw [chunksOf_length]; decide) rfl (by decide)
    rw [happ, hch]
    simp [u32le, chunkMismatchSess]

/-- Handshaken session whose device acknowledges the FLASH_SET_TOTAL_BYTES
request and nothing else. -/
def emptyAckSess : Sess := ⟨true, [(some PacketType.FLASH_SET_TOTAL_BYTES, [])], [], []⟩

/-- C5 counterexample: flashing the empty buffer returns ok but emits NO
progress record, not the exactly-one record with current = total = 0 that the
claim states. -/
theorem empty_flash_cex :
    (flash_partition "BL" [] emptyAckSess).1 = true ∧
    (flash_partition "BL" [] emptyAckSess).2.progressLog.length ≠ 1 := by
  have hrun : flash_partition "BL" [] emptyAckSess
      = (true, ⟨true, [], [(PacketType.FLASH_SET_TOTAL_BYTES, [0, 0, 0, 0])], []⟩) := by
    simp [flash_partition, flashBody, packU32?, writeFrame, readReply, flashChunks,
      u32le, emptyAckSess]
  rw [hrun]
  refine ⟨rfl, by decide⟩

/-- C5 (amended): flashing an empty buffer sends exactly one
FLASH_SET_TOTAL_BYTES frame with payload `00 00 00 00`, consumes exactly one
reply, sends no FLASH_SEND_DATA frame, emits no progress record, and returns
ok. -/
theorem empty_flash_behavior (s : Sess) (rest : List (Option PacketType × Payload))
    (name : String) (h : s.session_active = true)
    (hs : s.script = (some PacketType.FLASH_SET_TOTAL_BYTES, ([] : Payload)) :: rest) :
    flash_partition name [] s
      = (true, { s with
                 script := rest,
                 sent := s.sent ++ [(PacketType.FLASH_SET_TOTAL_BYTES, [0, 0, 0, 0])] }) := by
  obtain ⟨sa, sc, se, pl⟩ := s
  have h2 : sa = true := h
  have hs2 : sc = (some PacketType.FLASH_SET_TOTAL_BYTES, ([] : Payload)) :: rest := hs
  subst h2
  subst hs2
  simp [flash_partition, flashBody, packU32?, writeFrame, readReply, flashChunks, u32le]

/-- C5 witness: the amended empty flash at the concrete acking session. -/
theorem empty_flash_behavior_witness :
    flash_partition "BL" [] emptyAckSess
      = (true, ⟨true, [], [(PacketType.FLASH_SET_TOTAL_BYTES, [0, 0, 0, 0])], []⟩) :=
  empty_flash_behavior emptyAckSess [] "BL" rfl rfl

/-- Reply script of a device that acknowledges the whole flash of `data`:
one FLASH_SET_TOTAL_BYTES ack followed by one FLASH_SEND_DATA ack per chunk. -/
def ackScriptFor (data : Payload) : List (Option PacketType × Payload) :=
  (some PacketType.FLASH_SET_TOTAL_BYTES, []) ::
    List.replicate ((data.length + chunk_size - 1) / chunk_size)
      (some PacketType.FLASH_SEND_DATA, [])

theorem flash_run_acked (name : String) (data : Payload)
    (hlen : data.length < 4294967296) :
    flash_partition name data ⟨true, ackScriptFor data, [], []⟩
      = (true, ⟨true, [],
          (PacketType.FLASH_SET_TOTAL_BYTES, u32le data.length) ::
            (chunksOf data).map (fun c => (PacketType.FLASH_SEND_DATA, c)),
          progressOf name data.length 0 data⟩) := by
  have hscript : ackScriptFor data
      = (some PacketType.FLASH_SET_TOTAL_BYTES, ([] : Payload)) ::
        (List.replicate ((chunksOf data).length)
          (some PacketType.FLASH_SEND_DATA, ([] : Payload)) ++ []) := by
    rw [ackScriptFor, chunksOf_length]
    simp
  rw [show flash_partition name data ⟨true, ackScriptFor data, [], []⟩
      = flashBody name data ⟨true, ackScriptFor data, [], []⟩ from by
    simp [flash_partition]]
  rw [hscript]
  rw [show flashBody name data
        ⟨true, (some PacketType.FLASH_SET_TOTAL_BYTES, ([] : Payload)) ::
          (List.replicate ((chunksOf data).length)
            (some PacketType.FLASH_SEND_DATA, ([] : Payload)) ++ []), [], []⟩
      = flashChunks name data.length data 0
        ⟨true, List.replicate ((chunksOf data).length)
            (some PacketType.FLASH_SEND_DATA, ([] : Payload)) ++ [],
          [(PacketType.FLASH_SET_TOTAL_BYTES, u32le data.length)], []⟩ from by
    simp [flashBody, packU32?, hlen, writeFrame, readReply]]
  rw [flashChunks_spec_aux name data.length data.length data 0 true _ []
    [(PacketType.FLASH_SET_TOTAL_BYTES, u32le data.length)] [] (Nat.le_refl _) rfl]
  simp

/-- C1 counterexample: flashing an empty buffer emits no progress record at
all, so no final emitted progress record with
`current_bytes = total_bytes = 0` exists. -/
theorem chunk_totality_cex :
    ((flash_partition "BL" [] ⟨true, ackScriptFor [], [], []⟩).2.progressLog.getLast?).map
      (fun p => (p.current_bytes, p.total_bytes)) ≠ some (0, 0) := by
  rw [flash_run_acked "BL" [] (by decide)]
  simp [progressOf]

/-- C1 (amended): against a fully acknowledging device, a flash of `N` bytes
with `N < 2^32` (the largest count `struct.pack("<I", ...)` accepts; larger
buffers fail upfront with `struct.error`) and chunk size 1 MiB sends exactly
`ceil(N / chunk_size)` FLASH_SEND_DATA frames whose payload lengths sum to
`N`; when `N > 0` the final emitted progress record has
`current_bytes = total_bytes = N`, and when `N = 0` no progress record is
emitted. -/
theorem chunk_totality (name : String) (data : Payload)
    (hlen : data.length < 4294967296) :
    (flash_partition name data ⟨true, ackScriptFor data, [], []⟩).1 = true ∧
    ((flash_partition name data ⟨true, ackScriptFor data, [], []⟩).2.sent.filter
        (fun f => f.1 == PacketType.FLASH_SEND_DATA)).length
      = (data.length + chunk_size - 1) / chunk_size ∧
    (((flash_partition name data ⟨true, ackScriptFor data, [], []⟩).2.sent.filter
        (fun f => f.1 == PacketType.FLASH_SEND_DATA)).map (fun f => f.2.length)).sum
      = data.length ∧
    (data ≠ [] →
      ((flash_partition name data
          ⟨true, ackScriptFor data, [], []⟩).2.progressLog.getLast?).map
        (fun p => (p.current_bytes, p.total_bytes)) = some (data.length, data.length)) ∧
    (data = [] →
      (flash_partition name data ⟨true, ackScriptFor data, [], []⟩).2.progressLog = []) := by
  have hmapfilter : ∀ cs : List Payload,
      ((cs.map (fun c => (PacketType.FLASH_SEND_DATA, c))).filter
        (fun f => f.1 == PacketType.FLASH_SEND_DATA))
      = cs.map (fun c => (PacketType.FLASH_SEND_DATA, c)) := by
    intro cs
    induction cs with
    | nil => rfl
    | cons c cs ih => simp [ih]
  have hst : (PacketType.FLASH_SET_TOTAL_BYTES == PacketType.FLASH_SEND_DATA) = false := by
    decide
  rw [flash_run_acked name data hlen]
  refine ⟨rfl, ?_, ?_, ?_, ?_⟩
  · simp only [List.filter_cons, hst, Bool.false_eq_true, if_false, hmapfilter,
      List.length_map]
    exact chunksOf_length data
  · simp only [List.filter_cons, hst, Bool.false_eq_true, if_false, hmapfilter,
      List.map_map]
    exact chunksOf_sum data
  · intro hne
    exact progressOf_last name data.length 0 data hne (Nat.zero_add _).symm
  · intro he
    subst he
    simp [progressOf]

/-- C1 witness: the amended chunk-totality facts at a concrete one-byte flash. -/
theorem chunk_totality_witness :
    (flash_partition "AP" [5] ⟨true, ackScriptFor [5], [], []⟩).1 = true ∧
    ((flash_partition "AP" [5]
        ⟨true, ackScriptFor [5], [], []⟩).2.progressLog.getLast?).map
      (fun p => (p.current_bytes, p.total_bytes)) = some (1, 1) :=
  ⟨(chunk_totality "AP" [5] (by decide)).1,
   (chunk_totality "AP" [5] (by decide)).2.2.2.1 (by decide)⟩
